import Mathlib

/-!
Shallow embedding of the audio sequencing and scheduling engine of
`expression.js` (tone/duration resolver, sound resource pool setup,
lookahead scheduler, transport reset), together with theorems settling
the specification claims about it.

Numeric values (JS numbers: clock times, durations, frequencies, gain
values) are modelled as rationals.  JS string values are modelled as
`String`; a JS value that may be a number or a string (the `duration`
argument of `add_note`, and the duration stored in a note) is modelled
by `DurVal`, whose `nan` constructor stands for the result of JS
arithmetic on a non-numeric operand.
-/

/-- Beats per minute (`var BPM = 108`). -/
def BPM : ℚ := 108

/-- Length of a full note in seconds (`var FULL_NOTE_LENGTH = (1/(BPM / 60)) * 4`). -/
def FULL_NOTE_LENGTH : ℚ := (1 / (BPM / 60)) * 4

/-- Attack time as a fraction of note duration (`var ATTACK_TIME = 0.2`). -/
def ATTACK_TIME : ℚ := 2/10

/-- Sustain time as a fraction of note duration (`var SUSTAIN_TIME = 0.3`). -/
def SUSTAIN_TIME : ℚ := 3/10

/-- `var SCHEDULING_LOOKAHEAD = 80; // milliseconds`.  The source adds this
constant directly to `ctx.currentTime`, which is a clock in seconds. -/
def SCHEDULING_LOOKAHEAD : ℚ := 80

/-- `var SEMITONE_FREQUENCIES = [...]`, 12 tones per octave, A4 through G#4/5. -/
def SEMITONE_FREQUENCIES : List ℚ :=
  [440, 46616/100, 49388/100, 52325/100, 55437/100, 58733/100,
   62225/100, 65925/100, 69846/100, 73999/100, 78399/100, 83061/100]

/-- `var BASE_LETTERS = "ABCDEFG"` (as its character list). -/
def BASE_LETTERS : List Char := ['A', 'B', 'C', 'D', 'E', 'F', 'G']

/-- `var TONE_LETTERS = [...]`, letter names for each of the 12 tones. -/
def TONE_LETTERS : List String :=
  ["A", "A#", "B", "C", "C#", "D", "D#", "E", "F", "F#", "G", "G#"]

/-- `var PENTATONIC_LETTERS = [ "A", "C", "D", "E", "G" ]`. -/
def PENTATONIC_LETTERS : List String := ["A", "C", "D", "E", "G"]

/-- `var OCTAVES = [ '--', '-', '', '+', '++' ]`. -/
def OCTAVES : List String := ["--", "-", "", "+", "++"]

/-- A JS value sitting in a duration position: a number, a string, or NaN
(the latter only ever arises from arithmetic on a non-numeric string). -/
inductive DurVal where
  | num (q : ℚ)
  | str (s : String)
  | nan
deriving DecidableEq, Repr

/-- The warnings `add_note` can emit via `console.warn`, as structured values:
unknown duration letter, unknown duration modifier (with the `slice(1)` tail),
and a flat tone that could not be converted to a sharp. -/
inductive Warning where
  | unknownDuration (s : String)
  | unknownDurationModifier (s : String)
  | flatNotConverted (tone : String)
deriving DecidableEq, Repr

/-- JS `dur *= 1.5`.  A numeric operand multiplies; a non-numeric string
operand coerces to NaN.  (The only strings that reach this multiplication in
`add_note` are unrecognised duration letter codes, which are non-numeric.) -/
def durMul (d : DurVal) (k : ℚ) : DurVal :=
  match d with
  | .num q => .num (q * k)
  | .str _ => .nan
  | .nan => .nan

/-- The duration-resolution block of `add_note` (source lines 1514-1545):
given the `duration` argument, produce the `dur` value stored into the note
and the warnings emitted.  A non-string argument is used unchanged.  For a
string, the first character selects a fraction of `FULL_NOTE_LENGTH`; an
unrecognised first character leaves `dur` as the original string (the source
warns about a quarter-note fallback but assigns nothing).  A second character
`.` multiplies by 1.5; any other second character warns and keeps the base. -/
def resolve_duration (duration : DurVal) : DurVal × List Warning :=
  match duration with
  | .str s =>
    let cs := s.data
    let base : DurVal × List Warning :=
      if cs.get? 0 = some 't' then (.num ((1/32) * FULL_NOTE_LENGTH), [])
      else if cs.get? 0 = some 's' then (.num ((1/16) * FULL_NOTE_LENGTH), [])
      else if cs.get? 0 = some 'e' then (.num ((1/8) * FULL_NOTE_LENGTH), [])
      else if cs.get? 0 = some 'q' then (.num ((1/4) * FULL_NOTE_LENGTH), [])
      else if cs.get? 0 = some 'h' then (.num ((1/2) * FULL_NOTE_LENGTH), [])
      else if cs.get? 0 = some 'f' then (.num FULL_NOTE_LENGTH, [])
      else (.str s, [.unknownDuration s])
    if cs.length > 1 then
      if cs.get? 1 = some '.' then (durMul base.1 (3/2), base.2)
      else (base.1, base.2 ++ [.unknownDurationModifier (String.mk (cs.drop 1))])
    else base
  | d => (d, [])

/-- The flat-to-sharp conversion block of `add_note` (source lines 1547-1566).
If the tone string has a second character `b`, look one base letter back
(with wraparound at `A`), append `#`, and use the result when it is one of
the `TONE_LETTERS`; otherwise warn and leave the tone unchanged.  JS
out-of-range string indexing yields `undefined`, which concatenates as the
text "undefined"; `indexOf` of a missing letter yields -1. -/
def convert_tone (tone : String) : String × List Warning :=
  let cs := tone.data
  if cs.length > 1 ∧ cs.get? 1 = some 'b' then
    let rest := String.mk (cs.drop 2)
    let li0 : ℤ :=
      match cs.get? 0 with
      | some c =>
        match BASE_LETTERS.indexOf? c with
        | some i => (i : ℤ)
        | none => -1
      | none => -1
    let li : ℤ := if li0 = 0 then (BASE_LETTERS.length : ℤ) - 1 else li0 - 1
    let base : String :=
      if 0 ≤ li ∧ li < (BASE_LETTERS.length : ℤ)
      then String.mk [BASE_LETTERS.getD li.toNat 'A']
      else "undefined"
    let alt_tone := base ++ "#"
    if TONE_LETTERS.contains alt_tone then (alt_tone ++ rest, [])
    else (tone, [.flatNotConverted tone])
  else (tone, [])

/-- A tone specification as passed to `add_note`: a string or a number
(pentatonic index). -/
inductive ToneSpec where
  | str (s : String)
  | num (n : ℤ)
deriving DecidableEq, Repr

/-- JS object-property coercion of a tone value to the key string used when
indexing `track.keys`. -/
def tone_key : ToneSpec → String
  | .str s => s
  | .num n => toString n

/-- The note record `{"tone": tone, "duration": dur}` that `add_note` pushes
onto the current track. -/
structure NoteRecord where
  tone : ToneSpec
  duration : DurVal
deriving DecidableEq, Repr

/-- `add_note(tone, duration)` (source lines 1479-1571) as a pure function
from its two arguments to the note record appended to the current track and
the warnings emitted, in emission order (duration warnings first, then the
tone-conversion warning). -/
def add_note (tone : ToneSpec) (duration : DurVal) : NoteRecord × List Warning :=
  let dres := resolve_duration duration
  let tres : ToneSpec × List Warning :=
    match tone with
    | .str s =>
      let c := convert_tone s
      (.str c.1, c.2)
    | .num n => (.num n, [])
  (⟨tres.1, dres.1⟩, dres.2 ++ tres.2)

/-- One entry of a track's sound resource pool: an oscillator/gain pair.
Distinct creations receive distinct `id`s, so equality of `PoolEntry`
values models JS reference identity of the `{"osc": osc, "gain": gain}`
objects created by `setup_track`. -/
structure PoolEntry where
  id : ℕ
  freq : ℚ
deriving DecidableEq, Repr

/-- The octave-suffix frequency adjustment of `setup_track` (the
`hz /= 4` / `hz /= 2` / `hz *= 2` / `hz *= 4` chain). -/
def octave_adjust (octave : String) (hz : ℚ) : ℚ :=
  if octave = "--" then hz / 4
  else if octave = "-" then hz / 2
  else if octave = "+" then hz * 2
  else if octave = "++" then hz * 4
  else hz

/-- The letter-keyed pool entries built by the first double loop of
`setup_track` (source lines 1204-1234), in creation order: for each octave
suffix and each semitone index, the key `TONE_LETTERS[i] + octave` maps to a
fresh oscillator/gain pair at the octave-adjusted frequency. -/
def letter_keys : List (String × PoolEntry) :=
  OCTAVES.enum.flatMap (fun oo =>
    (TONE_LETTERS.zip SEMITONE_FREQUENCIES).enum.map (fun ilf =>
      (ilf.2.1 ++ oo.2,
       ⟨oo.1 * SEMITONE_FREQUENCIES.length + ilf.1, octave_adjust oo.2 ilf.2.2⟩)))

/-- The pentatonic numeric aliases added by the second double loop of
`setup_track` (source lines 1238-1244): for octave index `o` and pentatonic
letter index `i`, the key `String(PENTATONIC_LETTERS.length * (o-2) + i)`
maps to the very same pool entry as `PENTATONIC_LETTERS[i] + OCTAVES[o]`.
(Every such letter key exists, so the `filterMap` drops nothing.) -/
def pentatonic_keys : List (String × PoolEntry) :=
  OCTAVES.enum.flatMap (fun oo =>
    PENTATONIC_LETTERS.enum.filterMap (fun ip =>
      (letter_keys.lookup (ip.2 ++ oo.2)).map (fun e =>
        (toString ((PENTATONIC_LETTERS.length : ℤ) * ((oo.1 : ℤ) - 2) + (ip.1 : ℤ)), e))))

/-- The `track.keys` map after `setup_track`, as a lookup function.  All 85
assigned property keys are pairwise distinct, so first-match lookup over the
assignments in order models the JS object. -/
def track_keys (k : String) : Option PoolEntry :=
  (letter_keys ++ pentatonic_keys).lookup k

/-- A note as consumed by the scheduler: the tone already coerced to the
property key string used for the pool lookup (`"-"` marks a rest), and a
numeric duration in seconds. -/
structure SNote where
  tone : String
  duration : ℚ
deriving DecidableEq, Repr

/-- The kind of a scheduled gain-parameter change. -/
inductive EventKind where
  | setValueAtTime
  | linearRampToValueAtTime
deriving DecidableEq, Repr

/-- One scheduled gain-parameter change: kind, target value, absolute
context-clock time. -/
structure GainEvent where
  kind : EventKind
  value : ℚ
  time : ℚ
deriving DecidableEq, Repr

/-- The fixed four-event envelope `schedule_note` commits on the gain of
pool entry `id` for a note starting at `when` with duration `d`: set to 0
at the start, ramp to 1 over the attack fraction, hold 1 until the end of
the sustain fraction, ramp back to 0 by the end of the note. -/
def env_events (id : ℕ) (when d : ℚ) : List (ℕ × GainEvent) :=
  [(id, ⟨.setValueAtTime, 0, when⟩),
   (id, ⟨.linearRampToValueAtTime, 1, when + ATTACK_TIME * d⟩),
   (id, ⟨.setValueAtTime, 1, when + (ATTACK_TIME + SUSTAIN_TIME) * d⟩),
   (id, ⟨.linearRampToValueAtTime, 0, when + d⟩)]

/-- `schedule_note(track, note, when)` (source lines 1285-1315): a rest
commits nothing; otherwise the pool entry for the tone receives the fixed
four-event envelope.  A tone absent from the pool makes the JS code read
`.gain` of `undefined`, throwing a TypeError; this is modelled as an
`Except.error` that aborts the scheduling pass.  Committed events are
returned as (pool entry id, event) pairs in commit order. -/
def schedule_note (keys : String → Option PoolEntry) (note : SNote) (when : ℚ) :
    Except String (List (ℕ × GainEvent)) :=
  if note.tone = "-" then .ok []
  else
    match keys note.tone with
    | none => .error ("TypeError: tone " ++ note.tone ++ " has no pool entry")
    | some k => .ok (env_events k.id when note.duration)

/-- The per-track scheduling state of `schedule_audio` mid-loop, together
with the events committed so far (in commit order). -/
structure SchedState where
  next_note : ℕ
  target_time : ℚ
  events : List (ℕ × GainEvent)
deriving DecidableEq, Repr

/-- The inner `while` loop of `schedule_audio` for one track during one tick
(source lines 1272-1281), with explicit fuel: while
`target_time < now + SCHEDULING_LOOKAHEAD`, read the note at the cursor
(breaking if the track is empty), schedule it, advance `target_time` by its
duration and the cursor by one modulo the track length.  Running out of fuel
returns the state reached so far; a schedule error aborts the pass. -/
def sched_loop (keys : String → Option PoolEntry) (notes : List SNote) (now : ℚ) :
    ℕ → SchedState → Except String SchedState
  | 0, s => .ok s
  | n + 1, s =>
    if s.target_time < now + SCHEDULING_LOOKAHEAD then
      match notes.get? s.next_note with
      | none => .ok s
      | some note =>
        match schedule_note keys note s.target_time with
        | .error e => .error e
        | .ok evs =>
          sched_loop keys notes now n
            ⟨(s.next_note + 1) % notes.length,
             s.target_time + note.duration,
             s.events ++ evs⟩
    else .ok s

/-- The note-start times among a committed event list: the times of the
`setValueAtTime(0, when)` events that begin each envelope. -/
def start_times (evs : List (ℕ × GainEvent)) : List ℚ :=
  evs.filterMap (fun e =>
    if e.2.kind = .setValueAtTime ∧ e.2.value = 0 then some e.2.time else none)

/-- `const PLAY_SYMBOL` (the play-triangle emoji). -/
def PLAY_SYMBOL : String := "▶️"

/-- The state of one gain node's `AudioParam`: its pending scheduled value
changes and its current value. -/
structure GainNode where
  pending : List GainEvent
  value : ℚ
deriving DecidableEq, Repr

/-- One element of `audio._track_states_`: the cursor and the (possibly
unset) next target time. -/
structure TrackState where
  next_note : ℕ
  target_time : Option ℚ
deriving DecidableEq, Repr

/-- The transport-relevant state of an audio player: the play state string,
the scheduler interval id (if any), whether the context clock is running,
the recorded start time, the play/pause button label, the per-track
scheduling states, and the gain nodes of all pool entries of all tracks. -/
structure AudioState where
  play_state : String
  scheduler : Option ℕ
  ctx_running : Bool
  started_at : Option ℚ
  playpause_label : String
  track_states : List TrackState
  gains : List GainNode
deriving DecidableEq, Repr

/-- `gain.gain.cancelScheduledValues(t)`: removes every scheduled value
change whose time is at or after `t`; the current value is untouched. -/
def cancelScheduledValues (t : ℚ) (g : GainNode) : GainNode :=
  ⟨g.pending.filter (fun e => decide (e.time < t)), g.value⟩

/-- The pause branch of `toggle_play(audio, false)` (source lines 1357-1376):
set the button label to the play symbol, suspend the context clock, cancel
the scheduler interval, and enter the `"paused"` state. -/
def toggle_play_off (a : AudioState) : AudioState :=
  { a with
    playpause_label := PLAY_SYMBOL,
    ctx_running := false,
    scheduler := none,
    play_state := "paused" }

/-- `reset_audio(audio)` (source lines 1378-1410) at context-clock time
`now`: pause via `toggle_play(audio, false)`, force the `"stopped"` state,
clear the (already cleared) scheduler interval, reset every track state to
cursor 0 with unset target time, and for every pool entry's gain cancel the
scheduled values from `now` on and set the value to 0. -/
def reset_audio (now : ℚ) (a : AudioState) : AudioState :=
  let a1 := toggle_play_off a
  let a2 := { a1 with play_state := "stopped", scheduler := none }
  { a2 with
    track_states := a2.track_states.map (fun _ => ⟨0, none⟩),
    gains := a2.gains.map (fun g =>
      { cancelScheduledValues now g with value := 0 }) }

/-- Evaluation lemma: scheduling a rest commits no events
(`if (note.tone == "-") { return; }`). -/
theorem schedule_note_rest
    (keys : String → Option PoolEntry) (note : SNote) (w : ℚ) (h : note.tone = "-") :
    schedule_note keys note w = .ok [] := by
  unfold schedule_note
  rw [if_pos h]

/-- Evaluation lemma: scheduling a non-rest note whose tone is in the pool
commits the fixed four-event envelope on that pool entry. -/
theorem schedule_note_hit
    (keys : String → Option PoolEntry) (note : SNote) (w : ℚ) (e : PoolEntry)
    (h1 : note.tone ≠ "-") (h2 : keys note.tone = some e) :
    schedule_note keys note w = .ok (env_events e.id w note.duration) := by
  unfold schedule_note
  rw [if_neg h1, h2]

/-- One successful iteration of the scheduling loop: with the guard true,
the note read at the cursor and its events committed, the loop continues on
the advanced state (target time increased by the duration, cursor advanced
by one modulo the track length, events appended). -/
theorem sched_loop_commit_step
    (keys : String → Option PoolEntry) (notes : List SNote) (now : ℚ) (n : ℕ)
    (s : SchedState) (note : SNote) (evs : List (ℕ × GainEvent))
    (hlt : s.target_time < now + SCHEDULING_LOOKAHEAD)
    (hget : notes.get? s.next_note = some note)
    (hevs : schedule_note keys note s.target_time = .ok evs) :
    sched_loop keys notes now (n + 1) s =
      sched_loop keys notes now n
        ⟨(s.next_note + 1) % notes.length, s.target_time + note.duration,
         s.events ++ evs⟩ := by
  conv_lhs => rw [sched_loop]
  rw [if_pos hlt, hget]
  show (match schedule_note keys note s.target_time with
    | .error e => Except.error e
    | .ok evs => sched_loop keys notes now n
        ⟨(s.next_note + 1) % notes.length, s.target_time + note.duration,
         s.events ++ evs⟩) = _
  rw [hevs]

/-- A failing `schedule_note` aborts the whole scheduling pass with its
error. -/
theorem sched_loop_error_step
    (keys : String → Option PoolEntry) (notes : List SNote) (now : ℚ) (n : ℕ)
    (s : SchedState) (note : SNote) (msg : String)
    (hlt : s.target_time < now + SCHEDULING_LOOKAHEAD)
    (hget : notes.get? s.next_note = some note)
    (hevs : schedule_note keys note s.target_time = .error msg) :
    sched_loop keys notes now (n + 1) s = .error msg := by
  conv_lhs => rw [sched_loop]
  rw [if_pos hlt, hget]
  show (match schedule_note keys note s.target_time with
    | .error e => Except.error e
    | .ok evs => sched_loop keys notes now n
        ⟨(s.next_note + 1) % notes.length, s.target_time + note.duration,
         s.events ++ evs⟩) = _
  rw [hevs]

/-- A state in which the loop guard fails, or whose cursor reads no note,
is final: any amount of fuel returns it unchanged. -/
theorem sched_halted_stable
    (keys : String → Option PoolEntry) (notes : List SNote) (now : ℚ) (s : SchedState)
    (h : ¬ (s.target_time < now + SCHEDULING_LOOKAHEAD) ∨ notes.get? s.next_note = none) :
    ∀ m, sched_loop keys notes now m s = .ok s := by
  intro m
  cases m with
  | zero => rfl
  | succ m =>
    rw [sched_loop]
    rcases h with h | h
    · rw [if_neg h]
    · by_cases hlt : s.target_time < now + SCHEDULING_LOOKAHEAD
      · rw [if_pos hlt, h]
      · rw [if_neg hlt]

/-- C1: the claim says every event committed during a tick starts less than
0.08 seconds after `now`; in the code the comparison `target_time < now +
SCHEDULING_LOOKAHEAD` adds the raw millisecond constant 80 to the seconds
clock, so with `now = 0` a playing track holding one 1-second note gets its
second envelope committed at start time 1, which is not below `now + 0.08`:
the code schedules up to 80 seconds ahead, contradicting its own
`// milliseconds` comments. -/
theorem lookahead_window_violated :
    ∃ s, sched_loop track_keys [⟨"A", 1⟩] 0 2 ⟨0, 0, []⟩ = .ok s ∧
      ∃ e, track_keys "A" = some e ∧
        (e.id, (⟨.setValueAtTime, 0, 1⟩ : GainEvent)) ∈ s.events ∧
        ¬ ((1 : ℚ) < 0 + 8/100) := by
  refine ⟨⟨0, 2,
    [(24, ⟨.setValueAtTime, 0, 0⟩),
     (24, ⟨.linearRampToValueAtTime, 1, 1/5⟩),
     (24, ⟨.setValueAtTime, 1, 1/2⟩),
     (24, ⟨.linearRampToValueAtTime, 0, 1⟩),
     (24, ⟨.setValueAtTime, 0, 1⟩),
     (24, ⟨.linearRampToValueAtTime, 1, 6/5⟩),
     (24, ⟨.setValueAtTime, 1, 3/2⟩),
     (24, ⟨.linearRampToValueAtTime, 0, 2⟩)]⟩, ?_, ⟨24, 440⟩, rfl, ?_, by norm_num⟩
  · norm_num [sched_loop, schedule_note, env_events, ATTACK_TIME, SUSTAIN_TIME,
      SCHEDULING_LOOKAHEAD]
    rfl
  · norm_num

/-- C2: the claim says an unknown duration letter falls back to the
quarter-note duration; in the code the unknown-letter branch only warns and
never assigns `dur`, so `add_note("A", "x")` stores the string "x" itself as
the note's duration instead of the quarter note (5/9 s), contradicting the
code's own fallback warning message.  The second half of the claim does hold:
an unknown second character (here `add_note("A", "qz")`) keeps the base
duration and warns. -/
theorem unknown_duration_no_fallback :
    (add_note (.str "A") (.str "x")).1.duration = .str "x" ∧
    DurVal.str "x" ≠ .num ((1/4) * FULL_NOTE_LENGTH) ∧
    (add_note (.str "A") (.str "x")).2 = [.unknownDuration "x"] ∧
    (add_note (.str "A") (.str "qz")).1.duration = .num ((1/4) * FULL_NOTE_LENGTH) ∧
    (add_note (.str "A") (.str "qz")).2 = [.unknownDurationModifier "z"] := by
  simp [add_note, resolve_duration, convert_tone, FULL_NOTE_LENGTH, BPM]

/-- C3 counterexample: the claim says the tone spec "Cb" yields a note with
the same tone key as "B"; in the code the conversion builds "B#", which is
not one of the `TONE_LETTERS`, so the tone is left as "Cb" with a warning,
and "Cb" has no pool entry at all while "B" does. -/
theorem flat_wraparound_fails_for_Cb :
    (add_note (.str "Cb") (.num 1)).1.tone = .str "Cb" ∧
    (add_note (.str "B") (.num 1)).1.tone = .str "B" ∧
    ToneSpec.str "Cb" ≠ .str "B" ∧
    (add_note (.str "Cb") (.num 1)).2 = [.flatNotConverted "Cb"] ∧
    track_keys "Cb" = none ∧ (track_keys "B").isSome := by
  refine ⟨by decide, by decide, by decide, by decide, rfl, rfl⟩

/-- C3 amended: flats whose sharp equivalent one base letter back (with
wraparound at A) is one of the 12 tone letters are normalized before the
note is stored — in particular "Eb" yields the same tone key, and hence the
same pool entry, as "D#", and "Ab" wraps around to "G#" — but "Cb" (and
"Fb") have no representable sharp equivalent: they are left unconverted
with a reported warning and do not resolve to "B" (or "E"). -/
theorem flat_normalization :
    (add_note (.str "Eb") (.num 1)).1.tone = .str "D#" ∧
    track_keys (tone_key (add_note (.str "Eb") (.num 1)).1.tone) = track_keys "D#" ∧
    (track_keys "D#").isSome ∧
    (add_note (.str "Ab") (.num 1)).1.tone = .str "G#" ∧
    (add_note (.str "Bb") (.num 1)).1.tone = .str "A#" ∧
    (add_note (.str "Db") (.num 1)).1.tone = .str "C#" ∧
    (add_note (.str "Gb") (.num 1)).1.tone = .str "F#" ∧
    (add_note (.str "Eb-") (.num 1)).1.tone = .str "D#-" ∧
    (add_note (.str "Cb") (.num 1)).1.tone = .str "Cb" ∧
    (add_note (.str "Cb") (.num 1)).2 = [.flatNotConverted "Cb"] ∧
    (add_note (.str "Fb") (.num 1)).1.tone = .str "Fb" ∧
    (add_note (.str "Fb") (.num 1)).2 = [.flatNotConverted "Fb"] := by
  refine ⟨by decide, rfl, rfl, by decide, by decide, by decide, by decide,
    by decide, by decide, by decide, by decide, by decide⟩

/-- C4: after `setup_track`, for every octave-class index o in [0,4] and
pentatonic-letter index i in [0,4], the numeric pool key 5*(o-2)+i (covering
exactly [-10, 14]) holds the identical pool entry (same oscillator/gain
pair) as the letter key `PENTATONIC_LETTERS[i] + OCTAVES[o]`; in particular
keys "0", "-5" and "5" are the entries of "A", "A-" and "A+". -/
theorem pentatonic_alias :
    track_keys "0" = track_keys "A" ∧ (track_keys "0").isSome ∧
    track_keys "-5" = track_keys "A-" ∧ track_keys "5" = track_keys "A+" ∧
    ∀ o : ℕ, o < 5 → ∀ i : ℕ, i < 5 →
      track_keys (toString ((5 : ℤ) * ((o : ℤ) - 2) + (i : ℤ))) =
        track_keys (PENTATONIC_LETTERS.getD i "" ++ OCTAVES.getD o "") ∧
      (track_keys (toString ((5 : ℤ) * ((o : ℤ) - 2) + (i : ℤ)))).isSome := by
  refine ⟨rfl, rfl, rfl, rfl, ?_⟩
  intro o ho i hi
  interval_cases o <;> interval_cases i <;> exact ⟨rfl, rfl⟩

/-- C4 witness: the universally quantified part of `pentatonic_alias`
instantiated at octave class 3 and pentatonic letter 2, i.e. numeric key
5*(3-2)+2 = 7 aliases the letter key "D+". -/
theorem pentatonic_alias_witness :
    track_keys "7" = track_keys "D+" ∧ (track_keys "7").isSome := by
  have h := pentatonic_alias.2.2.2.2 3 (by decide) 2 (by decide)
  exact ⟨h.1, h.2⟩

/-- C5: each duration letter code t, s, e, q, h, f resolves to exactly
1/32, 1/16, 1/8, 1/4, 1/2, 1 times the full-note length (60/BPM)*4 seconds
at BPM 108, with no warning, and a trailing dot multiplies the resolved
duration by exactly 1.5. -/
theorem duration_letter_codes :
    (resolve_duration (.str "t") = (.num ((1/32) * ((60/108) * 4)), []) ∧
     resolve_duration (.str "s") = (.num ((1/16) * ((60/108) * 4)), []) ∧
     resolve_duration (.str "e") = (.num ((1/8) * ((60/108) * 4)), []) ∧
     resolve_duration (.str "q") = (.num ((1/4) * ((60/108) * 4)), []) ∧
     resolve_duration (.str "h") = (.num ((1/2) * ((60/108) * 4)), []) ∧
     resolve_duration (.str "f") = (.num ((60/108) * 4), [])) ∧
    (resolve_duration (.str "t.") = (.num (((1/32) * ((60/108) * 4)) * (3/2)), []) ∧
     resolve_duration (.str "s.") = (.num (((1/16) * ((60/108) * 4)) * (3/2)), []) ∧
     resolve_duration (.str "e.") = (.num (((1/8) * ((60/108) * 4)) * (3/2)), []) ∧
     resolve_duration (.str "q.") = (.num (((1/4) * ((60/108) * 4)) * (3/2)), []) ∧
     resolve_duration (.str "h.") = (.num (((1/2) * ((60/108) * 4)) * (3/2)), []) ∧
     resolve_duration (.str "f.") = (.num (((60/108) * 4) * (3/2)), [])) := by
  simp [resolve_duration, FULL_NOTE_LENGTH, BPM, durMul]


/-- C7: if at schedule time a note's tone is not the rest marker and is
absent from the track's key pool, `schedule_note` reads `.gain` of
`undefined` and throws (modelled as a reported `Except.error`), and the
error propagates out of the scheduling pass: `sched_loop` aborts with that
error instead of skipping the note and continuing. -/
theorem missing_tone_is_hard_error :
    ∀ (keys : String → Option PoolEntry) (note : SNote) (when : ℚ),
      note.tone ≠ "-" → keys note.tone = none →
      (∃ msg, schedule_note keys note when = .error msg) ∧
      ∀ (notes : List SNote) (now : ℚ) (n : ℕ) (s : SchedState),
        notes.get? s.next_note = some note →
        s.target_time < now + SCHEDULING_LOOKAHEAD →
        ∃ msg, sched_loop keys notes now (n + 1) s = .error msg := by
  intro keys note when h1 h2
  have hsn : ∀ w : ℚ, schedule_note keys note w =
      .error ("TypeError: tone " ++ note.tone ++ " has no pool entry") := by
    intro w
    unfold schedule_note
    rw [if_neg h1, h2]
  refine ⟨⟨_, hsn when⟩, ?_⟩
  intro notes now n s hget hlt
  exact ⟨_, sched_loop_error_step keys notes now n s note _ hlt hget (hsn s.target_time)⟩

/-- C7 witness: the tone "Z" is absent from the pool built by
`setup_track`, so scheduling a "Z" note fails the whole pass with a
reported error. -/
theorem missing_tone_witness :
    (∃ msg, schedule_note track_keys ⟨"Z", 1⟩ 0 = .error msg) ∧
    (∃ msg, sched_loop track_keys [⟨"Z", 1⟩] 0 1 ⟨0, 0, []⟩ = .error msg) := by
  have h := missing_tone_is_hard_error track_keys ⟨"Z", 1⟩ 0 (by decide) rfl
  exact ⟨h.1, h.2 [⟨"Z", 1⟩] 0 0 ⟨0, 0, []⟩ rfl (by norm_num [SCHEDULING_LOOKAHEAD])⟩

/-- C8: a rest note (tone "-") commits no envelope event, but the
scheduling loop still advances the target time by the rest's duration and
the cursor by one modulo the track length; consequently a track whose
single note is a rest keeps looping (cursor stays 0, target time advances
by whole multiples of the duration) without ever committing an event. -/
theorem rest_schedules_nothing :
    (∀ (keys : String → Option PoolEntry) (d when : ℚ),
       schedule_note keys ⟨"-", d⟩ when = .ok []) ∧
    (∀ (keys : String → Option PoolEntry) (notes : List SNote) (now : ℚ) (n : ℕ)
       (s : SchedState) note, notes.get? s.next_note = some note → note.tone = "-" →
       s.target_time < now + SCHEDULING_LOOKAHEAD →
       sched_loop keys notes now (n + 1) s =
         sched_loop keys notes now n
           ⟨(s.next_note + 1) % notes.length, s.target_time + note.duration, s.events⟩) ∧
    (∀ (keys : String → Option PoolEntry) (d now t : ℚ) (n : ℕ), ∃ k : ℕ, ∃ s' : SchedState,
       sched_loop keys [⟨"-", d⟩] now n ⟨0, t, []⟩ = .ok s' ∧
       s'.events = [] ∧ s'.next_note = 0 ∧ s'.target_time = t + k * d ∧ k ≤ n) := by
  refine ⟨fun keys d when => schedule_note_rest keys ⟨"-", d⟩ when rfl, ?_, ?_⟩
  · intro keys notes now n s note hget htone hlt
    rw [sched_loop_commit_step keys notes now n s note [] hlt hget
      (schedule_note_rest keys note s.target_time htone), List.append_nil]
  · intro keys d now t n
    induction n generalizing t with
    | zero =>
      exact ⟨0, ⟨0, t, []⟩, rfl, rfl, rfl, by push_cast; ring, le_refl 0⟩
    | succ n ih =>
      by_cases hlt : t < now + SCHEDULING_LOOKAHEAD
      · obtain ⟨k, s', hrun, hev, hnn, htt, hk⟩ := ih (t + d)
        refine ⟨k + 1, s', ?_, hev, hnn, by rw [htt]; push_cast; ring, by omega⟩
        rw [sched_loop_commit_step keys [⟨"-", d⟩] now n ⟨0, t, []⟩ ⟨"-", d⟩ []
          hlt rfl (schedule_note_rest keys ⟨"-", d⟩ t rfl)]
        simpa using hrun
      · exact ⟨0, ⟨0, t, []⟩, by rw [sched_loop, if_neg hlt], rfl, rfl, by push_cast; ring,
          by omega⟩

/-- C8 witness: concrete single-rest track at duration 1 second starting at
time 0 with the real pool: the first loop step advances time and keeps the
cursor at 0, and five fuel steps commit no event. -/
theorem rest_schedules_nothing_witness :
    schedule_note track_keys ⟨"-", 1⟩ 0 = .ok [] ∧
    (∃ k : ℕ, ∃ s' : SchedState,
      sched_loop track_keys [⟨"-", 1⟩] 0 5 ⟨0, 0, []⟩ = .ok s' ∧
      s'.events = [] ∧ s'.next_note = 0 ∧ s'.target_time = 0 + k * 1 ∧ k ≤ 5) := by
  exact ⟨rest_schedules_nothing.1 track_keys 1 0,
    rest_schedules_nothing.2.2 track_keys 1 0 0 5⟩

/-- If every note is at least `dmin` long, the target time after `k`
committed iterations has grown by at least `k * dmin`, so once
`k * dmin` covers the lookahead window the loop has reached a final
state. -/
theorem sched_terminates_aux
    (keys : String → Option PoolEntry) (notes : List SNote) (now dmin : ℚ)
    (hdur : ∀ note ∈ notes, dmin ≤ note.duration)
    (hres : ∀ note ∈ notes, note.tone = "-" ∨ (keys note.tone).isSome) :
    ∀ (k : ℕ) (s : SchedState), now + SCHEDULING_LOOKAHEAD ≤ s.target_time + k * dmin →
      ∃ n s', sched_loop keys notes now n s = .ok s' ∧
        ∀ m, sched_loop keys notes now m s' = .ok s' := by
  intro k
  induction k with
  | zero =>
    intro s hk
    have h : ¬ (s.target_time < now + SCHEDULING_LOOKAHEAD) := by
      push_cast at hk
      intro hcon
      linarith
    exact ⟨0, s, rfl, sched_halted_stable keys notes now s (.inl h)⟩
  | succ k ih =>
    intro s hk
    by_cases hlt : s.target_time < now + SCHEDULING_LOOKAHEAD
    · cases hget : notes.get? s.next_note with
      | none => exact ⟨0, s, rfl, sched_halted_stable keys notes now s (.inr hget)⟩
      | some note =>
        have hmem : note ∈ notes := List.get?_mem hget
        have hokevs : ∃ evs, schedule_note keys note s.target_time = .ok evs := by
          by_cases ht : note.tone = "-"
          · exact ⟨[], schedule_note_rest keys note s.target_time ht⟩
          · rcases hres note hmem with h | h
            · exact absurd h ht
            · obtain ⟨e, he⟩ := Option.isSome_iff_exists.mp h
              exact ⟨_, schedule_note_hit keys note s.target_time e ht he⟩
        obtain ⟨evs, hevs⟩ := hokevs
        have hbound : now + SCHEDULING_LOOKAHEAD ≤
            (s.target_time + note.duration) + k * dmin := by
          have hd : dmin ≤ note.duration := hdur note hmem
          push_cast at hk
          rw [add_one_mul] at hk
          linarith
        obtain ⟨n, s', h1, h2⟩ := ih ⟨(s.next_note + 1) % notes.length,
          s.target_time + note.duration, s.events ++ evs⟩ hbound
        refine ⟨n + 1, s', ?_, h2⟩
        rw [sched_loop_commit_step keys notes now n s note evs hlt hget hevs]
        exact h1
    · exact ⟨0, s, rfl, sched_halted_stable keys notes now s (.inl hlt)⟩

/-- On a track holding the single zero-duration note "A", the loop guard
never becomes false: with any fuel the run ends only by fuel exhaustion,
still inside the lookahead window, at an unchanged target time. -/
theorem sched_zero_duration_spins
    (keys : String → Option PoolEntry) (e : PoolEntry) (now : ℚ)
    (hA : keys "A" = some e) :
    ∀ (n : ℕ) (evs : List (ℕ × GainEvent)), ∃ s',
      sched_loop keys [⟨"A", 0⟩] now n ⟨0, now, evs⟩ = .ok s' ∧
      s'.target_time = now ∧ s'.target_time < now + SCHEDULING_LOOKAHEAD := by
  intro n
  induction n with
  | zero =>
    intro evs
    exact ⟨⟨0, now, evs⟩, rfl, rfl, by norm_num [SCHEDULING_LOOKAHEAD]⟩
  | succ n ih =>
    intro evs
    have hsn := schedule_note_hit keys ⟨"A", 0⟩ now e (by decide) hA
    obtain ⟨s', h1, h2, h3⟩ := ih (evs ++ env_events e.id now 0)
    refine ⟨s', ?_, h2, h3⟩
    rw [sched_loop_commit_step keys [⟨"A", 0⟩] now n ⟨0, now, evs⟩ ⟨"A", 0⟩ _
      (by norm_num [SCHEDULING_LOOKAHEAD]) rfl hsn]
    simpa using h1

/-- C10: if every note of a track has duration at least some positive lower
bound (and every tone is a rest or resolvable, so no error aborts the pass),
the per-tick inner while loop terminates: some fuel reaches a final state
that arbitrary further fuel never changes.  The positivity precondition is
required: a track holding a single note of duration 0 keeps the guard true
forever — every fuel bound ends by exhaustion with the target time stuck at
`now`, still inside the lookahead window. -/
theorem scheduler_inner_loop_terminates :
    (∀ (keys : String → Option PoolEntry) (notes : List SNote) (now dmin : ℚ),
       0 < dmin → (∀ note ∈ notes, dmin ≤ note.duration) →
       (∀ note ∈ notes, note.tone = "-" ∨ (keys note.tone).isSome) →
       ∀ s : SchedState, ∃ n s',
         sched_loop keys notes now n s = .ok s' ∧
         ∀ m, sched_loop keys notes now m s' = .ok s') ∧
    (∀ (keys : String → Option PoolEntry) (e : PoolEntry) (now : ℚ), keys "A" = some e →
       ∀ n, ∃ s', sched_loop keys [⟨"A", 0⟩] now n ⟨0, now, []⟩ = .ok s' ∧
         s'.target_time = now ∧ s'.target_time < now + SCHEDULING_LOOKAHEAD) := by
  constructor
  · intro keys notes now dmin hdmin hdur hres s
    obtain ⟨k, hk⟩ := exists_nat_ge ((now + SCHEDULING_LOOKAHEAD - s.target_time) / dmin)
    have hb : now + SCHEDULING_LOOKAHEAD ≤ s.target_time + k * dmin := by
      rw [div_le_iff₀ hdmin] at hk
      linarith
    exact sched_terminates_aux keys notes now dmin hdur hres k s hb
  · intro keys e now hA n
    exact sched_zero_duration_spins keys e now hA n []

/-- C10 witness: a single half-second "A" note starting at time 0 reaches a
final loop state with the real pool, while the zero-duration variant is
still inside the window after 3 iterations. -/
theorem scheduler_inner_loop_terminates_witness :
    (∃ n s', sched_loop track_keys [⟨"A", 1/2⟩] 0 n ⟨0, 0, []⟩ = .ok s' ∧
       ∀ m, sched_loop track_keys [⟨"A", 1/2⟩] 0 m s' = .ok s') ∧
    (∃ s', sched_loop track_keys [⟨"A", 0⟩] 0 3 ⟨0, 0, []⟩ = .ok s' ∧
       s'.target_time = 0 ∧ s'.target_time < 0 + SCHEDULING_LOOKAHEAD) := by
  constructor
  · refine scheduler_inner_loop_terminates.1 track_keys [⟨"A", 1/2⟩] 0 (1/2)
      (by norm_num) ?_ ?_ ⟨0, 0, []⟩
    · intro note h
      rw [List.mem_singleton.mp h]
    · intro note h
      rw [List.mem_singleton.mp h]
      exact Or.inr rfl
  · exact scheduler_inner_loop_terminates.2 track_keys ⟨24, 440⟩ 0 rfl 3

/-- Invariant lemma for the scheduling loop: if all durations are
nonnegative and the committed-event times so far form a nondecreasing list
bounded by the target time, both facts are preserved by any successful run
of the loop. -/
theorem sched_loop_chain
    (keys : String → Option PoolEntry) (notes : List SNote) (now : ℚ)
    (hdur : ∀ note ∈ notes, 0 ≤ note.duration) :
    ∀ (n : ℕ) (s s' : SchedState),
      List.Chain' (· ≤ ·) (s.events.map (fun ev => ev.2.time)) →
      (∀ ev ∈ s.events, ev.2.time ≤ s.target_time) →
      sched_loop keys notes now n s = .ok s' →
      List.Chain' (· ≤ ·) (s'.events.map (fun ev => ev.2.time)) ∧
      ∀ ev ∈ s'.events, ev.2.time ≤ s'.target_time := by
  intro n
  induction n with
  | zero =>
    intro s s' hchain hbnd hrun
    rw [sched_loop] at hrun
    injection hrun with h
    subst h
    exact ⟨hchain, hbnd⟩
  | succ n ih =>
    intro s s' hchain hbnd hrun
    by_cases hlt : s.target_time < now + SCHEDULING_LOOKAHEAD
    · cases hget : notes.get? s.next_note with
      | none =>
        rw [sched_halted_stable keys notes now s (.inr hget) (n + 1)] at hrun
        injection hrun with h
        subst h
        exact ⟨hchain, hbnd⟩
      | some note =>
        have hmem : note ∈ notes := List.get?_mem hget
        have hd : 0 ≤ note.duration := hdur note hmem
        by_cases ht : note.tone = "-"
        · rw [sched_loop_commit_step keys notes now n s note [] hlt hget
            (schedule_note_rest keys note s.target_time ht), List.append_nil] at hrun
          refine ih ⟨(s.next_note + 1) % notes.length,
            s.target_time + note.duration, s.events⟩ s' hchain ?_ hrun
          intro ev hev
          have h1 : ev.2.time ≤ s.target_time := hbnd ev hev
          show ev.2.time ≤ s.target_time + note.duration
          linarith
        · cases hke : keys note.tone with
          | none =>
            rw [sched_loop_error_step keys notes now n s note _ hlt hget
              (by unfold schedule_note; rw [if_neg ht, hke])] at hrun
            exact absurd hrun (by simp)
          | some e =>
            rw [sched_loop_commit_step keys notes now n s note _ hlt hget
              (schedule_note_hit keys note s.target_time e ht hke)] at hrun
            refine ih ⟨(s.next_note + 1) % notes.length,
              s.target_time + note.duration,
              s.events ++ env_events e.id s.target_time note.duration⟩ s' ?_ ?_ hrun
            · show List.Chain' (· ≤ ·)
                ((s.events ++ env_events e.id s.target_time note.duration).map
                  (fun ev => ev.2.time))
              rw [List.map_append]
              refine List.Chain'.append hchain ?_ ?_
              · simp only [env_events, List.map_cons, List.map_nil,
                  ATTACK_TIME, SUSTAIN_TIME]
                refine List.chain'_cons.mpr ⟨by linarith, ?_⟩
                refine List.chain'_cons.mpr ⟨by linarith, ?_⟩
                exact List.chain'_pair.mpr (by linarith)
              · intro x hx y hy
                simp only [env_events, List.map_cons, List.map_nil, List.head?] at hy
                obtain ⟨hne, hxeq⟩ := List.mem_getLast?_eq_getLast hx
                have hxm : x ∈ s.events.map (fun ev => ev.2.time) := by
                  rw [hxeq]
                  exact List.getLast_mem hne
                obtain ⟨ev, hev, hevx⟩ := List.mem_map.mp hxm
                rw [Option.mem_some_iff] at hy
                subst hy
                rw [← hevx]
                exact hbnd ev hev
            · intro ev hev
              show ev.2.time ≤ s.target_time + note.duration
              rcases List.mem_append.mp hev with h | h
              · have h1 : ev.2.time ≤ s.target_time := hbnd ev h
                linarith
              · simp only [env_events, List.mem_cons, List.not_mem_nil, or_false] at h
                rcases h with h | h | h | h <;> subst h <;>
                  simp only [ATTACK_TIME, SUSTAIN_TIME] <;> linarith
    · rw [sched_halted_stable keys notes now s (.inl hlt) (n + 1)] at hrun
      injection hrun with h
      subst h
      exact ⟨hchain, hbnd⟩

/-- C6: (1) for every track with nonnegative durations, a scheduling run
started with no committed events commits events whose times are
monotonically nondecreasing in commit order; (2) each committed iteration
starts the note exactly at the current target time, advances the target
time by exactly that note's duration, and advances the cursor by one modulo
the track length; (3) for the track with durations [1/2, 1/2, 1] starting
at target time T, the three committed start times are exactly T, T + 1/2
and T + 1, and after the three notes the cursor is back at index 0. -/
theorem schedule_order_and_example :
    (∀ (keys : String → Option PoolEntry) (notes : List SNote) (now : ℚ) (n : ℕ)
       (s s' : SchedState),
       (∀ note ∈ notes, 0 ≤ note.duration) → s.events = [] →
       sched_loop keys notes now n s = .ok s' →
       List.Chain' (· ≤ ·) (s'.events.map (fun ev => ev.2.time))) ∧
    (∀ (keys : String → Option PoolEntry) (notes : List SNote) (now : ℚ) (n : ℕ)
       (s : SchedState) (note : SNote) (evs : List (ℕ × GainEvent)),
       s.target_time < now + SCHEDULING_LOOKAHEAD →
       notes.get? s.next_note = some note →
       schedule_note keys note s.target_time = .ok evs →
       sched_loop keys notes now (n + 1) s =
         sched_loop keys notes now n
           ⟨(s.next_note + 1) % notes.length, s.target_time + note.duration,
            s.events ++ evs⟩) ∧
    (∀ (keys : String → Option PoolEntry) (T : ℚ) (eA eC eD : PoolEntry),
       keys "A" = some eA → keys "C" = some eC → keys "D" = some eD →
       ∃ s', sched_loop keys [⟨"A", 1/2⟩, ⟨"C", 1/2⟩, ⟨"D", 1⟩] T 3 ⟨0, T, []⟩ = .ok s' ∧
         start_times s'.events = [T, T + 1/2, T + 1] ∧
         s'.next_note = 0 ∧ s'.target_time = T + 2) := by
  refine ⟨?_, ?_, ?_⟩
  · intro keys notes now n s s' hdur hse hrun
    refine (sched_loop_chain keys notes now hdur n s s' ?_ ?_ hrun).1
    · rw [hse]
      exact List.chain'_nil
    · rw [hse]
      intro ev hev
      exact absurd hev (List.not_mem_nil ev)
  · intro keys notes now n s note evs hlt hget hevs
    exact sched_loop_commit_step keys notes now n s note evs hlt hget hevs
  · intro keys T eA eC eD hA hC hD
    have hlk : SCHEDULING_LOOKAHEAD = 80 := rfl
    have hltA : T < T + SCHEDULING_LOOKAHEAD := by rw [hlk]; linarith
    have hltC : T + 1/2 < T + SCHEDULING_LOOKAHEAD := by rw [hlk]; linarith
    have hltD : T + 1/2 + 1/2 < T + SCHEDULING_LOOKAHEAD := by rw [hlk]; linarith
    have hAne : (⟨"A", 1/2⟩ : SNote).tone ≠ "-" := by decide
    have hCne : (⟨"C", 1/2⟩ : SNote).tone ≠ "-" := by decide
    have hDne : (⟨"D", 1⟩ : SNote).tone ≠ "-" := by decide
    have h1 : sched_loop keys [⟨"A", 1/2⟩, ⟨"C", 1/2⟩, ⟨"D", 1⟩] T 3 ⟨0, T, []⟩ =
        sched_loop keys [⟨"A", 1/2⟩, ⟨"C", 1/2⟩, ⟨"D", 1⟩] T 2
          ⟨1, T + 1/2, env_events eA.id T (1/2)⟩ :=
      sched_loop_commit_step keys _ T 2 ⟨0, T, []⟩ ⟨"A", 1/2⟩ _
        hltA rfl (schedule_note_hit keys ⟨"A", 1/2⟩ T eA hAne hA)
    have h2 : sched_loop keys [⟨"A", 1/2⟩, ⟨"C", 1/2⟩, ⟨"D", 1⟩] T 2
          ⟨1, T + 1/2, env_events eA.id T (1/2)⟩ =
        sched_loop keys [⟨"A", 1/2⟩, ⟨"C", 1/2⟩, ⟨"D", 1⟩] T 1
          ⟨2, T + 1/2 + 1/2,
           env_events eA.id T (1/2) ++ env_events eC.id (T + 1/2) (1/2)⟩ :=
      sched_loop_commit_step keys [⟨"A", 1/2⟩, ⟨"C", 1/2⟩, ⟨"D", 1⟩] T 1
        ⟨1, T + 1/2, env_events eA.id T (1/2)⟩ ⟨"C", 1/2⟩ _
        hltC rfl (schedule_note_hit keys ⟨"C", 1/2⟩ (T + 1/2) eC hCne hC)
    have h3 : sched_loop keys [⟨"A", 1/2⟩, ⟨"C", 1/2⟩, ⟨"D", 1⟩] T 1
          ⟨2, T + 1/2 + 1/2,
           env_events eA.id T (1/2) ++ env_events eC.id (T + 1/2) (1/2)⟩ =
        sched_loop keys [⟨"A", 1/2⟩, ⟨"C", 1/2⟩, ⟨"D", 1⟩] T 0
          ⟨(2 + 1) % 3, T + 1/2 + 1/2 + 1,
           (env_events eA.id T (1/2) ++ env_events eC.id (T + 1/2) (1/2)) ++
             env_events eD.id (T + 1/2 + 1/2) 1⟩ :=
      sched_loop_commit_step keys [⟨"A", 1/2⟩, ⟨"C", 1/2⟩, ⟨"D", 1⟩] T 0
        ⟨2, T + 1/2 + 1/2,
         env_events eA.id T (1/2) ++ env_events eC.id (T + 1/2) (1/2)⟩ ⟨"D", 1⟩ _
        hltD rfl (schedule_note_hit keys ⟨"D", 1⟩ (T + 1/2 + 1/2) eD hDne hD)
    refine ⟨⟨(2 + 1) % 3, T + 1/2 + 1/2 + 1,
      (env_events eA.id T (1/2) ++ env_events eC.id (T + 1/2) (1/2)) ++
        env_events eD.id (T + 1/2 + 1/2) 1⟩, by rw [h1, h2, h3]; rfl, ?_, by norm_num, by ring⟩
    show start_times ((env_events eA.id T (1/2) ++ env_events eC.id (T + 1/2) (1/2)) ++
        env_events eD.id (T + 1/2 + 1/2) 1) = [T, T + 1/2, T + 1]
    have hne : EventKind.linearRampToValueAtTime ≠ EventKind.setValueAtTime := by decide
    simp only [start_times, env_events, List.append_assoc, List.filterMap_append,
      List.filterMap_cons, List.filterMap_nil, hne]
    norm_num
    ring

/-- C6 witness: the three-note example run on the real pool starting at
time 100. -/
theorem schedule_order_and_example_witness :
    ∃ s', sched_loop track_keys [⟨"A", 1/2⟩, ⟨"C", 1/2⟩, ⟨"D", 1⟩] 100 3
        ⟨0, 100, []⟩ = .ok s' ∧
      start_times s'.events = [100, 100 + 1/2, 100 + 1] ∧
      s'.next_note = 0 ∧ s'.target_time = 100 + 2 := by
  exact schedule_order_and_example.2.2 track_keys 100 ⟨24, 440⟩ ⟨27, 52325/100⟩
    ⟨29, 58733/100⟩ rfl rfl rfl

/-- C9: `reset_audio` is idempotent — with a monotone clock, resetting twice
in a row yields exactly the state of a single reset — and that state has
play state "stopped", no scheduler interval, every track cursor at 0 with
unset target time, and every gain at value 0 with every still-pending
scheduled value strictly before the reset time (everything at or after it
cancelled). -/
theorem reset_audio_idempotent :
    (∀ (a : AudioState) (now now' : ℚ), now ≤ now' →
       reset_audio now' (reset_audio now a) = reset_audio now a) ∧
    (∀ (a : AudioState) (now : ℚ),
       (reset_audio now a).play_state = "stopped" ∧
       (reset_audio now a).scheduler = none ∧
       (∀ ts ∈ (reset_audio now a).track_states, ts = ⟨0, none⟩) ∧
       (∀ g ∈ (reset_audio now a).gains,
         g.value = 0 ∧ ∀ ev ∈ g.pending, ev.time < now)) := by
  constructor
  · intro a now now' h
    obtain ⟨ps, sch, cr, st, lbl, tss, gs⟩ := a
    simp only [reset_audio, toggle_play_off, cancelScheduledValues, AudioState.mk.injEq,
      true_and, and_true, List.map_map]
    constructor
    · rfl
    · apply List.map_congr_left
      intro g _
      simp only [Function.comp_apply, GainNode.mk.injEq, and_true]
      show ((g.pending.filter (fun ev => decide (ev.time < now))).filter
        (fun ev => decide (ev.time < now'))) = g.pending.filter (fun ev => decide (ev.time < now))
      rw [List.filter_filter]
      apply List.filter_congr
      intro ev _
      by_cases hev : ev.time < now
      · simp [hev, lt_of_lt_of_le hev h]
      · simp [hev]
  · intro a now
    obtain ⟨ps, sch, cr, st, lbl, tss, gs⟩ := a
    refine ⟨rfl, rfl, ?_, ?_⟩
    · intro ts hts
      simp only [reset_audio, toggle_play_off, List.mem_map] at hts
      obtain ⟨x, _, hx⟩ := hts
      exact hx.symm
    · intro g hg
      simp only [reset_audio, toggle_play_off, cancelScheduledValues, List.mem_map] at hg
      obtain ⟨g0, _, hg0⟩ := hg
      subst hg0
      refine ⟨rfl, ?_⟩
      intro ev hev
      have hm := List.mem_filter.mp hev
      exact of_decide_eq_true hm.2

/-- C9 witness: concrete playing player with one track state and one gain
holding a pending event, reset at time 0 and again at time 1. -/
theorem reset_audio_idempotent_witness :
    reset_audio 1 (reset_audio 0 ⟨"playing", some 5, true, some 2, "paused-label",
        [⟨3, some 7⟩], [⟨[⟨.setValueAtTime, 1, 10⟩], 4⟩]⟩) =
      reset_audio 0 ⟨"playing", some 5, true, some 2, "paused-label",
        [⟨3, some 7⟩], [⟨[⟨.setValueAtTime, 1, 10⟩], 4⟩]⟩ ∧
    (reset_audio 0 ⟨"playing", some 5, true, some 2, "paused-label",
        [⟨3, some 7⟩], [⟨[⟨.setValueAtTime, 1, 10⟩], 4⟩]⟩).play_state = "stopped" := by
  exact ⟨reset_audio_idempotent.1 _ 0 1 (by norm_num), (reset_audio_idempotent.2 _ 0).1⟩
